import Mathlib

/-!
Verification of the TimeTrackr background-safe timer engine.

Shallow embedding of:
* `public/timer-worker.js` — the background Clock Source (namespace `Worker`);
* the worker-backed `Timer` component — message handling, completion latch and
  notification rituals (namespace `TimerC`);
* the interval-backed `Timer` component in `src/components/timer.tsx`
  (namespace `IntervalTimer`);
* the `TaskList` sequencer in `task-list.tsx` (namespace `TaskSeq`);
* the sound catalog in `src/lib/sounds.ts`.

JavaScript numbers that hold whole seconds / milliseconds are modelled as `Int`.
-/

namespace TimeTrackr

/-! ### Sound catalog (`src/lib/sounds.ts`) -/

structure Sound where
  id : String
  name : String
  src : String
deriving DecidableEq

def GUITAR_SOUND : String := "/sounds/relaxing-guitar-loop-v5-245859.mp3"

def notificationSounds : List Sound :=
  [⟨("guitar"), ("Guitar"), GUITAR_SOUND⟩,
   ⟨("bell"), ("Bell"), GUITAR_SOUND⟩,
   ⟨("digital"), ("Digital"), GUITAR_SOUND⟩]

def completionSounds : List Sound :=
  [⟨("guitar"), ("Guitar"), GUITAR_SOUND⟩,
   ⟨("success"), ("Success"), GUITAR_SOUND⟩,
   ⟨("fanfare"), ("Fanfare"), GUITAR_SOUND⟩]

/-- Translation of `catalog.find((s) => s.id === soundId) || catalog[0]`. -/
def resolveSound (catalog : List Sound) (soundId : String) : Sound :=
  (catalog.find? (fun s => s.id == soundId)).getD (catalog.headD ⟨(""), (""), ("")⟩)

/-- Translation of `formatTimeVerbose` from `src/lib/sounds.ts`.  `Math.floor(seconds / 60)` is
floor division and the JavaScript `%` is a truncating remainder. -/
def formatTimeVerbose (seconds : Int) : String :=
  let minutes := Int.fdiv seconds 60
  let remainingSeconds := Int.tmod seconds 60
  if minutes = 0 then
    toString remainingSeconds ++ " seconds"
  else if remainingSeconds = 0 then
    toString minutes ++ " minute" ++ (if minutes ≠ 1 then "s" else "")
  else
    toString minutes ++ " minute" ++ (if minutes ≠ 1 then "s" else "") ++
      " and " ++ toString remainingSeconds ++ " second" ++
      (if remainingSeconds ≠ 1 then "s" else "")

namespace Worker

/-! ### The background Clock Source: `public/timer-worker.js` -/

/-- Upstream events posted by the worker (`self.postMessage`). -/
inductive WEvent where
  | tick (timeLeft : Int)
  | reminder (elapsed : Int)
  | finalMinute
  | complete
  | resetEv (timeLeft : Int)
deriving DecidableEq

/-- Worker-global mutable state.  `timerRunning` models `timerId !== null`. -/
structure WState where
  timerRunning : Bool
  timeLeft : Int
  duration : Int
  recurrentTime : Int
  lastNotificationTime : Int
deriving DecidableEq

/-- Initial module state of the worker script. -/
def initWState : WState := ⟨false, 0, 0, 0, 0⟩

/-- The guard of the recurrent-reminder branch, evaluated after the decrement:
`recurrentTime > 0 && elapsed > 0 && elapsed % recurrentTime < 1 &&
 Date.now() - lastNotificationTime > 5000`. -/
def reminderCond (st : WState) (now : Int) : Prop :=
  0 < st.recurrentTime ∧ 0 < st.duration - (st.timeLeft - 1) ∧
    (st.duration - (st.timeLeft - 1)) % st.recurrentTime < 1 ∧
    5000 < now - st.lastNotificationTime

instance (st : WState) (now : Int) : Decidable (reminderCond st now) := by
  unfold reminderCond; infer_instance

/-- One firing of the `setInterval` callback installed by `startTimer`, given
the current wall-clock time `now` (`Date.now()`).  Returns the new state and
the posted events, in posting order. -/
def workerTick (st : WState) (now : Int) : WState × List WEvent :=
  let timeLeft := st.timeLeft - 1
  let elapsed := st.duration - timeLeft
  let fires := reminderCond st now
  let newLast := if fires then now else st.lastNotificationTime
  let evs :=
    (if fires then [WEvent.reminder elapsed] else []) ++
    (if timeLeft = 60 then [WEvent.finalMinute] else []) ++
    [WEvent.tick timeLeft] ++
    (if timeLeft ≤ 0 then [WEvent.complete] else [])
  let running := if timeLeft ≤ 0 then false else st.timerRunning
  (⟨running, timeLeft, st.duration, st.recurrentTime, newLast⟩, evs)

/-- Downstream commands of the message protocol (`self.onmessage`). -/
inductive WCmd where
  | start (duration timeLeft recurrentTime : Int)
  | pause
  | reset (duration : Int)
  | update (duration recurrentTime : Int) (timeLeft : Option Int)
deriving DecidableEq

/-- The `onmessage` dispatch.  Here `reset` models `timeLeft = newDuration || duration`
(`0` is falsy) and emits the `reset` event; `update` only assigns `timeLeft`
when the field is present. -/
def workerCmd (st : WState) (c : WCmd) : WState × List WEvent :=
  match c with
  | .start d tl r =>
      ({ st with duration := d, timeLeft := tl, recurrentTime := r, timerRunning := true }, [])
  | .pause => ({ st with timerRunning := false }, [])
  | .reset d =>
      let tl := if d = 0 then st.duration else d
      ({ st with timerRunning := false, timeLeft := tl, lastNotificationTime := 0 },
        [WEvent.resetEv tl])
  | .update d r tl? =>
      match tl? with
      | some tl => ({ st with duration := d, recurrentTime := r, timeLeft := tl }, [])
      | none => ({ st with duration := d, recurrentTime := r }, [])

/-- A step of the worker's life: either an incoming command message or a firing
of the interval (which exists only while `timerId !== null`). -/
inductive WStep where
  | msg (c : WCmd)
  | clock (now : Int)
deriving DecidableEq

def wStep (st : WState) (s : WStep) : WState × List WEvent :=
  match s with
  | .msg c => workerCmd st c
  | .clock now => if st.timerRunning then workerTick st now else (st, [])

/-- Run a sequence of steps, collecting all posted events. -/
def wRun (st : WState) : List WStep → WState × List WEvent
  | [] => (st, [])
  | s :: rest =>
      let p := wStep st s
      let q := wRun p.1 rest
      (q.1, p.2 ++ q.2)

/-- All states passed through while running a step sequence. -/
def wRunStates (st : WState) : List WStep → List WState
  | [] => [st]
  | s :: rest => st :: wRunStates (wStep st s).1 rest

/-- Events of a run, each paired with the state right after the step that
posted it. -/
def wRunAnn (st : WState) : List WStep → List (WState × WEvent)
  | [] => []
  | s :: rest =>
      (wStep st s).2.map (fun e => ((wStep st s).1, e)) ++ wRunAnn (wStep st s).1 rest

/-- Repeated interval firings at the given wall-clock times, as long as the
timer is running; each event is annotated with the `Date.now()` of its tick. -/
def runTicksFull (st : WState) : List Int → WState × List (Int × WEvent)
  | [] => (st, [])
  | t :: ts =>
      if st.timerRunning then
        let p := workerTick st t
        let q := runTicksFull p.1 ts
        (q.1, p.2.map (fun e => (t, e)) ++ q.2)
      else (st, [])

/-- Wall-clock times of `n` consecutive one-second interval firings, the first
happening one second after tick number `k`, counting from a start instant
`t0`. -/
def canonTimes (t0 k n : Nat) : List Int :=
  (List.range n).map fun (i : Nat) => (t0 : Int) + 1000 * ((k : Int) + (i : Int) + 1)

/-- The canonical countdown of a task: the worker receives
`start {duration: D, timeLeft: D, recurrentTime: R}` at instant `t0` and its
interval then fires every 1000 ms, `D` times. -/
def countdownRun (D R t0 : Nat) : List (Int × WEvent) :=
  (runTicksFull (workerCmd initWState (WCmd.start D D R)).1 (canonTimes t0 0 D)).2

/-- The events of the canonical countdown, without time annotations. -/
def countdownEvents (D R t0 : Nat) : List WEvent :=
  (countdownRun D R t0).map Prod.snd

/-! Projections of event streams. -/

def tickVal : WEvent → Option Int
  | .tick t => some t
  | _ => none

def isFmEv : WEvent → Bool
  | .finalMinute => true
  | _ => false

def isCompleteEv : WEvent → Bool
  | .complete => true
  | _ => false

def reminderVal : WEvent → Option Int
  | .reminder e => some e
  | _ => none

def tickVals (evs : List WEvent) : List Int := evs.filterMap tickVal

def fmCount (evs : List WEvent) : Nat := evs.countP isFmEv

def completeCount (evs : List WEvent) : Nat := evs.countP isCompleteEv

/-- Reminder events of an annotated run: (wall-clock fire time, elapsed). -/
def reminderPairs (l : List (Int × WEvent)) : List (Int × Int) :=
  l.filterMap fun p => (reminderVal p.2).map fun e => (p.1, e)

/-- The wall-clock timestamp recorded in `lastNotificationTime` after `e`
elapsed seconds of a canonical countdown with interval `R`: still the initial
`0` before the first reminder, afterwards the time of the latest one. -/
def lastFire (t0 R e : Nat) : Int :=
  if e / R = 0 then 0 else (t0 : Int) + 1000 * ((R * (e / R) : Nat) : Int)

/-- Payload constraint of the amended protocol claim: each command keeps the
countdown bounds with respect to the state it arrives at. -/
def cmdOK (st : WState) : WStep → Bool
  | .msg (.start d tl _) => decide (1 ≤ tl ∧ tl ≤ d)
  | .msg .pause => true
  | .msg (.reset d) => decide (0 ≤ d ∧ d ≤ st.duration)
  | .msg (.update d _ tl?) =>
      match tl? with
      | some tl => decide (1 ≤ tl ∧ tl ≤ d)
      | none => decide (st.timeLeft ≤ d)
  | .clock _ => true

/-- Every step of the sequence satisfies `cmdOK` in the state it reaches. -/
def okSeq : WState → List WStep → Bool
  | _, [] => true
  | st, s :: rest => cmdOK st s && okSeq (wStep st s).1 rest

/-- The countdown-state invariant of the spec, plus the strengthening that a
running timer still has a whole second left. -/
def WInv (st : WState) : Prop :=
  0 ≤ st.timeLeft ∧ st.timeLeft ≤ st.duration ∧ (st.timerRunning = true → 1 ≤ st.timeLeft)

end Worker

/-! ### Side-effecting actions performed by the Timer components -/

/-- Observable actions of a notification ritual.  `signalComplete` is the call
of the `onComplete` prop handed down by the Task Sequencer. -/
inductive TAction where
  | playSound (src : String)
  | showNotif (title body : String)
  | wait (ms : Nat)
  | speak (text : String)
  | signalComplete
deriving DecidableEq

def isNotifAction : TAction → Bool
  | .showNotif _ _ => true
  | _ => false

def isSpeakAction : TAction → Bool
  | .speak _ => true
  | _ => false

def isSignalAction : TAction → Bool
  | .signalComplete => true
  | _ => false

def hasNotifAction (l : List TAction) : Bool := l.any isNotifAction

def hasSpeakAction (l : List TAction) : Bool := l.any isSpeakAction

def countSignal (l : List TAction) : Nat := l.countP isSignalAction

namespace TimerC

/-! ### The worker-backed `Timer` component -/

/-- The props and environment snapshot a ritual runs against: the task name and
sound ids from the props, the `isVisible` / `notificationsEnabled` state, and
the injected failure: `failAt = some i` means the `i`-th action of the
completion sequence's `try` block throws when reached. -/
structure Env where
  task : String
  notificationSound : String
  completionSound : String
  isVisible : Bool
  notificationsEnabled : Bool
  failAt : Option Nat

/-- The `notificationSequence` run for a `recurrent` worker notification:
play sound, raise a system notification only when the page is hidden and
permission was granted, wait 5 s, speak only when the page is visible. -/
def notificationSequence (env : Env) (elapsed : Int) : List TAction :=
  let sound := resolveSound notificationSounds env.notificationSound
  let newNotification := formatTimeVerbose elapsed ++ " have passed"
  [TAction.playSound sound.src] ++
    (if !env.isVisible && env.notificationsEnabled then
      [TAction.showNotif (env.task ++ " - Time Update") newNotification]
    else []) ++
    [TAction.wait 5000] ++
    (if env.isVisible then [TAction.speak newNotification] else [])

/-- The `finalMinuteSequence` run for a `finalMinute` worker notification. -/
def finalMinuteSequence (env : Env) : List TAction :=
  let sound := resolveSound notificationSounds env.notificationSound
  [TAction.playSound sound.src] ++
    (if !env.isVisible && env.notificationsEnabled then
      [TAction.showNotif (env.task ++ " - Almost Done") ("1 minute left")]
    else []) ++
    [TAction.wait 5000] ++
    (if env.isVisible then [TAction.speak ("1 minute left")] else [])

/-- The actions inside the `try` block of `completionSequence`, in order. -/
def completionSteps (env : Env) : List TAction :=
  let sound := resolveSound completionSounds env.completionSound
  [TAction.playSound sound.src] ++
    (if !env.isVisible && env.notificationsEnabled then
      [TAction.showNotif (env.task ++ " - Completed")
        ("Task completed. Moving to the next task.")]
    else []) ++
    [TAction.wait 5000] ++
    (if env.isVisible then
      [TAction.speak ("Task " ++ env.task ++
        " should be completed by now. Moving to the next task.")]
    else []) ++
    [TAction.wait 3000]

/-- The `completionSequence`: the `try` block runs until its end — or until the
injected failure — and `onComplete` is called either as the final step or from
the `catch` fallback. -/
def completionSequence (env : Env) : List TAction :=
  match env.failAt with
  | none => completionSteps env ++ [TAction.signalComplete]
  | some i => (completionSteps env).take i ++ [TAction.signalComplete]

/-- Component state touched by the worker's messages.  `hasCalledOnComplete`
is the per-activation completion latch (a ref, so never re-rendered away). -/
structure TState where
  timeLeft : Int
  isRunning : Bool
  hasCalledOnComplete : Bool
deriving DecidableEq

/-- State installed by the task-change effect: `setTimeLeft(duration)`,
`setIsRunning(true)`, `hasCalledOnComplete.current = false`. -/
def activationState (duration : Int) : TState := ⟨duration, true, false⟩

/-- Translation of `handleTaskComplete`: a second `complete` finds the latch set and does
nothing; the first sets the latch, stops the timer and starts the completion
sequence. -/
def handleTaskComplete (env : Env) (st : TState) : TState × List TAction :=
  if st.hasCalledOnComplete then (st, [])
  else ({ st with hasCalledOnComplete := true, isRunning := false }, completionSequence env)

/-- The `workerRef.current.onmessage` dispatch. -/
def onMessage (env : Env) (st : TState) : Worker.WEvent → TState × List TAction
  | .tick t => ({ st with timeLeft := t }, [])
  | .reminder e => (st, notificationSequence env e)
  | .finalMinute => (st, finalMinuteSequence env)
  | .complete => handleTaskComplete env st
  | .resetEv t => ({ st with timeLeft := t }, [])

/-- Deliver a list of worker messages to the component, collecting actions. -/
def processMsgs (env : Env) (st : TState) : List Worker.WEvent → TState × List TAction
  | [] => (st, [])
  | m :: ms =>
      let p := onMessage env st m
      let q := processMsgs env p.1 ms
      (q.1, p.2 ++ q.2)

end TimerC

namespace IntervalTimer

/-! ### The interval-backed `Timer` of `src/components/timer.tsx` -/

/-- Its recurrent-notification sequence: play, wait 5 s, speak — with no
visibility gating and no system notification. -/
def notificationSequence (notifSoundId : String) (elapsed : Int) : List TAction :=
  let sound := resolveSound notificationSounds notifSoundId
  [TAction.playSound sound.src, TAction.wait 5000,
   TAction.speak (formatTimeVerbose elapsed ++ " have passed")]

/-- Its final-minute sequence: play, wait 5 s, speak. -/
def finalMinuteSequence (notifSoundId : String) : List TAction :=
  let sound := resolveSound notificationSounds notifSoundId
  [TAction.playSound sound.src, TAction.wait 5000, TAction.speak ("1 minute left")]

/-- The `try` block of its completion sequence. -/
def completionSteps (task complSoundId : String) : List TAction :=
  let sound := resolveSound completionSounds complSoundId
  [TAction.playSound sound.src, TAction.wait 5000,
   TAction.speak ("Task " ++ task ++ " should be completed by now. Moving to the next task."),
   TAction.wait 3000]

/-- Its completion sequence with the same `try`/`catch` shape: `onComplete`
runs last, or from the `catch` fallback when step `i` throws. -/
def completionSequence (task complSoundId : String) (failAt : Option Nat) : List TAction :=
  match failAt with
  | none => completionSteps task complSoundId ++ [TAction.signalComplete]
  | some i => (completionSteps task complSoundId).take i ++ [TAction.signalComplete]

end IntervalTimer

namespace TaskSeq

/-! ### The `TaskList` sequencer (`task-list.tsx`) -/

/-- The `Task` interface of `task-form.tsx`. -/
structure Task where
  id : String
  name : String
  duration : Int
  recurrentTime : Int
  notificationSound : String
  completionSound : String
deriving DecidableEq

/-- State of `TaskList`: `tasks`, `currentTaskIndex` (a number or `null`) and `allTasksCompleted`. -/
structure SeqState where
  tasks : List Task
  currentTaskIndex : Option Int
  allTasksCompleted : Bool
deriving DecidableEq

/-- Translation of `tasks.findIndex((task) => task.id === taskId)`: `-1` when absent. -/
def findIndexId (tasks : List Task) (taskId : String) : Int :=
  match tasks.findIdx? (fun t => t.id == taskId) with
  | some i => (i : Int)
  | none => -1

/-- Translation of `removeTask(taskId)`: adjust `currentTaskIndex` from the index of the
removed task, then filter the list. -/
def removeTask (st : SeqState) (taskId : String) : SeqState :=
  let taskIndex := findIndexId st.tasks taskId
  let newCurrent :=
    match st.currentTaskIndex with
    | none => none
    | some c =>
        if taskIndex = c then
          if 1 < st.tasks.length then
            if taskIndex = (st.tasks.length : Int) - 1 then some 0 else some c
          else none
        else if taskIndex < c then some (c - 1)
        else some c
  { st with tasks := st.tasks.filter (fun t => t.id != taskId),
            currentTaskIndex := newCurrent }

/-- Translation of `handleTaskComplete`: on the last index set `allTasksCompleted` and clear
the index, otherwise advance to the next index. -/
def handleTaskComplete (st : SeqState) : SeqState :=
  match st.currentTaskIndex with
  | some c =>
      if 0 < st.tasks.length then
        if c = (st.tasks.length : Int) - 1 then
          { st with allTasksCompleted := true, currentTaskIndex := none }
        else
          { st with currentTaskIndex := some (c + 1) }
      else st
  | none => st

/-- Translation of `startTask(index)`. -/
def startTask (st : SeqState) (index : Int) : SeqState :=
  { st with currentTaskIndex := some index, allTasksCompleted := false }

/-- Sample tasks for concrete witnesses. -/
def taskA : Task := ⟨("a"), ("Task A"), 60, 0, ("guitar"), ("guitar")⟩

def taskB : Task := ⟨("b"), ("Task B"), 120, 30, ("bell"), ("success")⟩

end TaskSeq

/-! ## Helper lemmas -/

@[simp] lemma isNotifAction_playSound (s : String) : isNotifAction (TAction.playSound s) = false := rfl

@[simp] lemma isNotifAction_showNotif (t b : String) : isNotifAction (TAction.showNotif t b) = true := rfl

@[simp] lemma isNotifAction_wait (n : Nat) : isNotifAction (TAction.wait n) = false := rfl

@[simp] lemma isNotifAction_speak (s : String) : isNotifAction (TAction.speak s) = false := rfl

@[simp] lemma isNotifAction_signal : isNotifAction TAction.signalComplete = false := rfl

@[simp] lemma isSpeakAction_playSound (s : String) : isSpeakAction (TAction.playSound s) = false := rfl

@[simp] lemma isSpeakAction_showNotif (t b : String) : isSpeakAction (TAction.showNotif t b) = false := rfl

@[simp] lemma isSpeakAction_wait (n : Nat) : isSpeakAction (TAction.wait n) = false := rfl

@[simp] lemma isSpeakAction_speak (s : String) : isSpeakAction (TAction.speak s) = true := rfl

@[simp] lemma isSpeakAction_signal : isSpeakAction TAction.signalComplete = false := rfl

@[simp] lemma isSignalAction_playSound (s : String) : isSignalAction (TAction.playSound s) = false := rfl

@[simp] lemma isSignalAction_showNotif (t b : String) : isSignalAction (TAction.showNotif t b) = false := rfl

@[simp] lemma isSignalAction_wait (n : Nat) : isSignalAction (TAction.wait n) = false := rfl

@[simp] lemma isSignalAction_speak (s : String) : isSignalAction (TAction.speak s) = false := rfl

@[simp] lemma isSignalAction_signal : isSignalAction TAction.signalComplete = true := rfl

lemma countSignal_append (l₁ l₂ : List TAction) :
    countSignal (l₁ ++ l₂) = countSignal l₁ + countSignal l₂ :=
  List.countP_append _ _ _

lemma countSignal_completionSteps (env : TimerC.Env) :
    countSignal (TimerC.completionSteps env) = 0 := by
  obtain ⟨t, ns, cs, vis, en, f⟩ := env
  cases vis <;> cases en <;>
    simp [TimerC.completionSteps, countSignal, List.countP_append, List.countP_cons]

lemma countSignal_completionSequence (env : TimerC.Env) :
    countSignal (TimerC.completionSequence env) = 1 := by
  have hsteps := countSignal_completionSteps env
  unfold TimerC.completionSequence
  match env.failAt with
  | none =>
      simp only [countSignal_append, hsteps]
      simp [countSignal, List.countP_cons]
  | some i =>
      have htake : countSignal ((TimerC.completionSteps env).take i) = 0 := by
        have hsub := List.take_sublist i (TimerC.completionSteps env)
        have hle := hsub.countP_le isSignalAction
        simp only [countSignal] at hsteps ⊢
        omega
      simp only [countSignal_append, htake]
      simp [countSignal, List.countP_cons]

lemma countSignal_notificationSequence (env : TimerC.Env) (elapsed : Int) :
    countSignal (TimerC.notificationSequence env elapsed) = 0 := by
  obtain ⟨t, ns, cs, vis, en, f⟩ := env
  cases vis <;> cases en <;>
    simp [TimerC.notificationSequence, countSignal, List.countP_append, List.countP_cons]

lemma countSignal_finalMinuteSequence (env : TimerC.Env) :
    countSignal (TimerC.finalMinuteSequence env) = 0 := by
  obtain ⟨t, ns, cs, vis, en, f⟩ := env
  cases vis <;> cases en <;>
    simp [TimerC.finalMinuteSequence, countSignal, List.countP_append, List.countP_cons]

lemma processMsgs_latched (env : TimerC.Env) (msgs : List Worker.WEvent) :
    ∀ st : TimerC.TState, st.hasCalledOnComplete = true →
      (TimerC.processMsgs env st msgs).1.hasCalledOnComplete = true ∧
      countSignal (TimerC.processMsgs env st msgs).2 = 0 := by
  induction msgs with
  | nil => intro st h; exact ⟨h, rfl⟩
  | cons m ms ih =>
      intro st h
      cases m with
      | tick t =>
          have := ih { st with timeLeft := t } h
          simpa [TimerC.processMsgs, TimerC.onMessage, countSignal_append] using this
      | reminder e =>
          have := ih st h
          simp [TimerC.processMsgs, TimerC.onMessage, countSignal_append,
            countSignal_notificationSequence, this.1, this.2]
      | finalMinute =>
          have := ih st h
          simp [TimerC.processMsgs, TimerC.onMessage, countSignal_append,
            countSignal_finalMinuteSequence, this.1, this.2]
      | complete =>
          have := ih st h
          simp [TimerC.processMsgs, TimerC.onMessage, TimerC.handleTaskComplete, h,
            countSignal_append, this.1, this.2]
      | resetEv t =>
          have := ih { st with timeLeft := t } h
          simpa [TimerC.processMsgs, TimerC.onMessage, countSignal_append] using this

lemma processMsgs_signal_bound (env : TimerC.Env) (msgs : List Worker.WEvent) :
    ∀ st : TimerC.TState,
      countSignal (TimerC.processMsgs env st msgs).2 ≤ (if st.hasCalledOnComplete then 0 else 1) := by
  induction msgs with
  | nil => intro st; simp [TimerC.processMsgs, countSignal]
  | cons m ms ih =>
      intro st
      cases m with
      | tick t =>
          have := ih { st with timeLeft := t }
          simpa [TimerC.processMsgs, TimerC.onMessage, countSignal_append] using this
      | reminder e =>
          have := ih st
          simpa [TimerC.processMsgs, TimerC.onMessage, countSignal_append,
            countSignal_notificationSequence] using this
      | finalMinute =>
          have := ih st
          simpa [TimerC.processMsgs, TimerC.onMessage, countSignal_append,
            countSignal_finalMinuteSequence] using this
      | complete =>
          by_cases h : st.hasCalledOnComplete
          · have := ih st
            simp [TimerC.processMsgs, TimerC.onMessage, TimerC.handleTaskComplete, h,
              countSignal_append] at this ⊢
            omega
          · have hrest := processMsgs_latched env ms
              { st with hasCalledOnComplete := true, isRunning := false } rfl
            simp [TimerC.processMsgs, TimerC.onMessage, TimerC.handleTaskComplete, h,
              countSignal_append, countSignal_completionSequence, hrest.2]
      | resetEv t =>
          have := ih { st with timeLeft := t }
          simpa [TimerC.processMsgs, TimerC.onMessage, countSignal_append] using this

/-! ## Claim C1 -/

/-- C1: per task activation the worker-backed Timer invokes the sequencer's
`onComplete` at most once: across any stream of worker messages after
activation at most one `signalComplete` action is emitted; delivering
`complete` twice emits exactly one; and a `complete` arriving with the latch
already set leaves the state unchanged and performs no action. -/
theorem onComplete_at_most_once (env : TimerC.Env) (d : Int)
    (msgs : List Worker.WEvent) (t : Int) (r : Bool) :
    countSignal (TimerC.processMsgs env (TimerC.activationState d) msgs).2 ≤ 1 ∧
    countSignal (TimerC.processMsgs env (TimerC.activationState d)
      [Worker.WEvent.complete, Worker.WEvent.complete]).2 = 1 ∧
    TimerC.onMessage env ⟨t, r, true⟩ Worker.WEvent.complete = (⟨t, r, true⟩, []) := by
  refine ⟨?_, ?_, ?_⟩
  · have := processMsgs_signal_bound env msgs (TimerC.activationState d)
    simpa [TimerC.activationState] using this
  · have h := countSignal_completionSequence env
    simp only [countSignal] at h
    simp [TimerC.processMsgs, TimerC.onMessage, TimerC.handleTaskComplete,
      TimerC.activationState, countSignal, h]
  · simp [TimerC.onMessage, TimerC.handleTaskComplete]

/-! ## Claim C7 -/

/-- C7 (amended): the worker-backed Timer's three rituals raise a system
notification exactly when the page is hidden and permission is granted, and
speak exactly when the page is visible; the interval-backed Timer's three
rituals (reminder, final-minute, completion) never raise a system
notification and always speak, regardless of visibility. -/
theorem ritual_gating (env : TimerC.Env) (elapsed : Int) (soundId task : String) :
    hasNotifAction (TimerC.notificationSequence env elapsed) =
      (!env.isVisible && env.notificationsEnabled) ∧
    hasSpeakAction (TimerC.notificationSequence env elapsed) = env.isVisible ∧
    hasNotifAction (TimerC.finalMinuteSequence env) =
      (!env.isVisible && env.notificationsEnabled) ∧
    hasSpeakAction (TimerC.finalMinuteSequence env) = env.isVisible ∧
    hasNotifAction (TimerC.completionSteps env) =
      (!env.isVisible && env.notificationsEnabled) ∧
    hasSpeakAction (TimerC.completionSteps env) = env.isVisible ∧
    hasNotifAction (IntervalTimer.notificationSequence soundId elapsed) = false ∧
    hasSpeakAction (IntervalTimer.notificationSequence soundId elapsed) = true ∧
    hasNotifAction (IntervalTimer.finalMinuteSequence soundId) = false ∧
    hasSpeakAction (IntervalTimer.finalMinuteSequence soundId) = true ∧
    hasNotifAction (IntervalTimer.completionSteps task soundId) = false ∧
    hasSpeakAction (IntervalTimer.completionSteps task soundId) = true := by
  obtain ⟨t, ns, cs, vis, en, f⟩ := env
  cases vis <;> cases en <;>
    simp [TimerC.notificationSequence, TimerC.finalMinuteSequence, TimerC.completionSteps,
      IntervalTimer.notificationSequence, IntervalTimer.finalMinuteSequence,
      IntervalTimer.completionSteps, hasNotifAction, hasSpeakAction]

/-- C7 counterexample: a recurrent-reminder ritual of the interval-backed
Timer (`src/components/timer.tsx`), run while the document is hidden, still
speaks and raises no system notification even when permission is granted —
refuting, for that ritual run, both directions of the claimed
visibility/permission gating. -/
theorem interval_ritual_speaks_when_hidden :
    hasSpeakAction (IntervalTimer.notificationSequence ("guitar") 60) = true ∧
    hasNotifAction (IntervalTimer.notificationSequence ("guitar") 60) = false := by
  constructor <;>
    simp [IntervalTimer.notificationSequence, hasSpeakAction, hasNotifAction]

/-! ## Claim C8 -/

/-- C8: every execution of the completion ritual — under any injected failure
point in its step sequence, in either Timer realization — invokes the
sequencer's `onComplete` exactly once, as its final action. -/
theorem completion_ritual_always_signals (env : TimerC.Env)
    (task soundId : String) (failAt : Option Nat) :
    countSignal (TimerC.completionSequence env) = 1 ∧
    (TimerC.completionSequence env).getLast? = some TAction.signalComplete ∧
    countSignal (IntervalTimer.completionSequence task soundId failAt) = 1 ∧
    (IntervalTimer.completionSequence task soundId failAt).getLast? =
      some TAction.signalComplete := by
  refine ⟨countSignal_completionSequence env, ?_, ?_, ?_⟩
  · unfold TimerC.completionSequence
    match env.failAt with
    | none => exact List.getLast?_concat _
    | some i => exact List.getLast?_concat _
  · have hsteps : countSignal (IntervalTimer.completionSteps task soundId) = 0 := by
      simp [IntervalTimer.completionSteps, countSignal, List.countP_cons]
    unfold IntervalTimer.completionSequence
    match failAt with
    | none =>
        simp only [countSignal_append, hsteps]
        simp [countSignal, List.countP_cons]
    | some i =>
        have htake : countSignal ((IntervalTimer.completionSteps task soundId).take i) = 0 := by
          have hsub := List.take_sublist i (IntervalTimer.completionSteps task soundId)
          have hle := hsub.countP_le isSignalAction
          simp only [countSignal] at hsteps ⊢
          omega
        simp only [countSignal_append, htake]
        simp [countSignal, List.countP_cons]
  · unfold IntervalTimer.completionSequence
    match failAt with
    | none => exact List.getLast?_concat _
    | some i => exact List.getLast?_concat _

/-! ## Claim C10 -/

/-- C10 (bug witness): removing an id that occurs nowhere in the task list
(`findIndex` returns `-1`, which compares `< currentTaskIndex`) leaves the
list unchanged but erroneously decrements the active index — here from
`some 0` to `some (-1)` — where the claimed frame property requires it to be
unchanged. -/
theorem removeTask_absent_id_bug :
    TaskSeq.removeTask ⟨[TaskSeq.taskA], some 0, false⟩ ("b") =
      ⟨[TaskSeq.taskA], some (-1), false⟩ := by
  decide

/-! ## Claim C5 -/

lemma iterate_handleTaskComplete (tasks : List TaskSeq.Task) :
    ∀ k : Nat, k < tasks.length →
      TaskSeq.handleTaskComplete^[k] ⟨tasks, some 0, false⟩ =
        ⟨tasks, some (k : Int), false⟩ := by
  intro k
  induction k with
  | zero => intro _; simp
  | succ k ih =>
      intro hk
      rw [Function.iterate_succ_apply', ih (by omega)]
      have h0 : 0 < tasks.length := by omega
      have hne : (k : Int) ≠ (tasks.length : Int) - 1 := by omega
      simp [TaskSeq.handleTaskComplete, h0, hne]

/-- C5: starting a list of `N ≥ 1` tasks at index 0 and driving `N`
completions moves the active index through `0, 1, …, N-1`; the `N`-th
completion sets `allTasksCompleted` and clears the active index, so no task is
running any more. -/
theorem sequencer_advances (tasks : List TaskSeq.Task) (h : 1 ≤ tasks.length) :
    (∀ k : Nat, k < tasks.length →
      (TaskSeq.handleTaskComplete^[k]
        (TaskSeq.startTask ⟨tasks, none, false⟩ 0)).currentTaskIndex = some (k : Int)) ∧
    (TaskSeq.handleTaskComplete^[tasks.length]
      (TaskSeq.startTask ⟨tasks, none, false⟩ 0)).allTasksCompleted = true ∧
    (TaskSeq.handleTaskComplete^[tasks.length]
      (TaskSeq.startTask ⟨tasks, none, false⟩ 0)).currentTaskIndex = none := by
  have hstart : TaskSeq.startTask ⟨tasks, none, false⟩ 0 =
      (⟨tasks, some 0, false⟩ : TaskSeq.SeqState) := rfl
  obtain ⟨m, hm⟩ : ∃ m, tasks.length = m + 1 := ⟨tasks.length - 1, by omega⟩
  have hlast : TaskSeq.handleTaskComplete^[tasks.length]
      (TaskSeq.startTask ⟨tasks, none, false⟩ 0) =
      ⟨tasks, none, true⟩ := by
    rw [hstart, hm, Function.iterate_succ_apply',
      iterate_handleTaskComplete tasks m (by omega)]
    have h0 : 0 < tasks.length := by omega
    have heq : (m : Int) = (tasks.length : Int) - 1 := by omega
    simp [TaskSeq.handleTaskComplete, h0, heq]
  refine ⟨?_, ?_, ?_⟩
  · intro k hk
    rw [hstart, iterate_handleTaskComplete tasks k hk]
  · rw [hlast]
  · rw [hlast]

/-- Witness for C5: a concrete two-task list run to completion. -/
theorem sequencer_advances_witness :
    1 ≤ ([TaskSeq.taskA, TaskSeq.taskB] : List TaskSeq.Task).length ∧
    (TaskSeq.handleTaskComplete^[2]
      (TaskSeq.startTask ⟨[TaskSeq.taskA, TaskSeq.taskB], none, false⟩ 0)).allTasksCompleted
      = true := by
  refine ⟨by decide, ?_⟩
  exact (sequencer_advances [TaskSeq.taskA, TaskSeq.taskB] (by decide)).2.1

/-! ## Claim C6 -/

/-- C6: `removeTask` on a list with active index `c`: it removes every task
carrying the requested id, and (i) removing the active task when it is not
last keeps the index at `c` (the slot is re-filled, the run does not go idle);
(ii) removing the active task when it is last in a multi-task list wraps the
index to 0; (iii) removing the only task clears the index to `none` (idle);
(iv) removing a task positioned before the active one decrements the index. -/
theorem removeTask_cases (tasks : List TaskSeq.Task) (c : Int) (taskId : String)
    (hc0 : 0 ≤ c) (hcN : c < (tasks.length : Int)) :
    (∀ t ∈ (TaskSeq.removeTask ⟨tasks, some c, false⟩ taskId).tasks, t.id ≠ taskId) ∧
    (TaskSeq.findIndexId tasks taskId = c → 1 < tasks.length →
      c ≠ (tasks.length : Int) - 1 →
      (TaskSeq.removeTask ⟨tasks, some c, false⟩ taskId).currentTaskIndex = some c) ∧
    (TaskSeq.findIndexId tasks taskId = c → 1 < tasks.length →
      c = (tasks.length : Int) - 1 →
      (TaskSeq.removeTask ⟨tasks, some c, false⟩ taskId).currentTaskIndex = some 0) ∧
    (TaskSeq.findIndexId tasks taskId = c → tasks.length = 1 →
      (TaskSeq.removeTask ⟨tasks, some c, false⟩ taskId).currentTaskIndex = none) ∧
    (0 ≤ TaskSeq.findIndexId tasks taskId → TaskSeq.findIndexId tasks taskId < c →
      (TaskSeq.removeTask ⟨tasks, some c, false⟩ taskId).currentTaskIndex = some (c - 1)) := by
  refine ⟨?_, ?_, ?_, ?_, ?_⟩
  · intro t ht
    simp only [TaskSeq.removeTask, List.mem_filter, bne_iff_ne, ne_eq] at ht
    exact ht.2
  · intro hfi hlen hne
    simp [TaskSeq.removeTask, hfi, hlen, hne]
  · intro hfi hlen heq
    simp [TaskSeq.removeTask, hfi, hlen, heq]
  · intro hfi hlen
    have hc : c = 0 := by
      rw [hlen] at hcN; omega
    simp [TaskSeq.removeTask, hfi, hlen, hc]
  · intro hge hlt
    have hne : TaskSeq.findIndexId tasks taskId ≠ c := by omega
    simp [TaskSeq.removeTask, hne, hlt]

/-- Witness for C6: removing the active first task of a two-task list keeps
the index at 0 so the second task takes its place. -/
theorem removeTask_cases_witness :
    (0 : Int) ≤ 0 ∧
    (0 : Int) < (([TaskSeq.taskA, TaskSeq.taskB] : List TaskSeq.Task).length : Int) ∧
    (TaskSeq.removeTask ⟨[TaskSeq.taskA, TaskSeq.taskB], some 0, false⟩
      ("a")).currentTaskIndex = some 0 := by
  refine ⟨by decide, by decide, ?_⟩
  exact (removeTask_cases [TaskSeq.taskA, TaskSeq.taskB] 0 ("a")
    (by decide) (by decide)).2.1 (by decide) (by decide) (by decide)

/-! ## Claim C9 -/

lemma wStep_inv (st : Worker.WState) (s : Worker.WStep)
    (hinv : Worker.WInv st) (hok : Worker.cmdOK st s = true) :
    Worker.WInv (Worker.wStep st s).1 ∧
    (∀ p ∈ (Worker.wStep st s).2, ∀ tl : Int, p = Worker.WEvent.tick tl →
      0 ≤ tl ∧ tl ≤ (Worker.wStep st s).1.duration) := by
  obtain ⟨h1, h2, h3⟩ := hinv
  cases s with
  | msg c =>
      cases c with
      | start d tl r =>
          simp only [Worker.cmdOK, decide_eq_true_eq] at hok
          have ha : (0 : Int) ≤ tl := by omega
          have hb : tl ≤ d := by omega
          have hc : (1 : Int) ≤ tl := by omega
          exact ⟨⟨ha, hb, fun _ => hc⟩,
            fun p hp => by simp [Worker.wStep, Worker.workerCmd] at hp⟩
      | pause =>
          exact ⟨⟨h1, h2, fun h => nomatch h⟩,
            fun p hp => by simp [Worker.wStep, Worker.workerCmd] at hp⟩
      | reset d =>
          simp only [Worker.cmdOK, decide_eq_true_eq] at hok
          have hbounds : 0 ≤ (if d = 0 then st.duration else d) ∧
              (if d = 0 then st.duration else d) ≤ st.duration := by
            split_ifs <;> omega
          refine ⟨⟨hbounds.1, hbounds.2, fun h => nomatch h⟩, ?_⟩
          intro p hp tl hptl
          have hp' : p = Worker.WEvent.resetEv (if d = 0 then st.duration else d) := by
            simpa [Worker.wStep, Worker.workerCmd] using hp
          rw [hp'] at hptl
          exact absurd hptl (by simp)
      | update d r tl? =>
          cases tl? with
          | some tl =>
              simp only [Worker.cmdOK, decide_eq_true_eq] at hok
              have ha : (0 : Int) ≤ tl := by omega
              have hb : tl ≤ d := by omega
              have hc : (1 : Int) ≤ tl := by omega
              exact ⟨⟨ha, hb, fun _ => hc⟩,
                fun p hp => by simp [Worker.wStep, Worker.workerCmd] at hp⟩
          | none =>
              simp only [Worker.cmdOK, decide_eq_true_eq] at hok
              exact ⟨⟨h1, hok, fun h => h3 h⟩,
                fun p hp => by simp [Worker.wStep, Worker.workerCmd] at hp⟩
  | clock now =>
      by_cases hr : st.timerRunning = true
      · have h1' : 1 ≤ st.timeLeft := h3 hr
        have hstep : Worker.wStep st (Worker.WStep.clock now) = Worker.workerTick st now := by
          simp [Worker.wStep, hr]
        rw [hstep]
        have hfst : (Worker.workerTick st now).1.timeLeft = st.timeLeft - 1 := by
          simp [Worker.workerTick]
        have hrun : (Worker.workerTick st now).1.timerRunning = true →
            1 ≤ (Worker.workerTick st now).1.timeLeft := by
          intro h
          by_cases hle : st.timeLeft - 1 ≤ 0
          · have hfalse : (Worker.workerTick st now).1.timerRunning = false := by
              simp [Worker.workerTick, hle]
            rw [hfalse] at h
            exact absurd h (by simp)
          · rw [hfst]
            omega
        have hdur : (Worker.workerTick st now).1.duration = st.duration := by
          simp [Worker.workerTick]
        refine ⟨⟨by rw [hfst]; omega, by rw [hfst, hdur]; omega, hrun⟩, ?_⟩
        intro p hp tl hptl
        subst hptl
        have hval : tl = st.timeLeft - 1 := by
          simp only [Worker.workerTick, List.mem_append, List.mem_singleton] at hp
          rcases hp with ((hp | hp) | hp) | hp
          · split_ifs at hp <;> simp_all
          · split_ifs at hp <;> simp_all
          · simpa using hp
          · split_ifs at hp <;> simp_all
        rw [hdur]
        omega
      · have hstep : Worker.wStep st (Worker.WStep.clock now) = (st, []) := by
          simp [Worker.wStep, hr]
        rw [hstep]
        exact ⟨⟨h1, h2, fun h => absurd h hr⟩, fun p hp => by simp at hp⟩

lemma wRun_inv (ss : List Worker.WStep) :
    ∀ st : Worker.WState, Worker.WInv st → Worker.okSeq st ss = true →
      (∀ st' ∈ Worker.wRunStates st ss, Worker.WInv st') ∧
      (∀ p ∈ Worker.wRunAnn st ss, ∀ tl : Int, p.2 = Worker.WEvent.tick tl →
        0 ≤ tl ∧ tl ≤ p.1.duration) := by
  induction ss with
  | nil =>
      intro st hinv _
      refine ⟨?_, ?_⟩
      · intro st' hst'
        simp only [Worker.wRunStates, List.mem_singleton] at hst'
        exact hst' ▸ hinv
      · intro p hp
        simp [Worker.wRunAnn] at hp
  | cons s rest ih =>
      intro st hinv hok
      simp only [Worker.okSeq, Bool.and_eq_true] at hok
      have hstep := wStep_inv st s hinv hok.1
      have hrest := ih (Worker.wStep st s).1 hstep.1 hok.2
      refine ⟨?_, ?_⟩
      · intro st' hst'
        simp only [Worker.wRunStates, List.mem_cons] at hst'
        rcases hst' with h | h
        · exact h ▸ hinv
        · exact hrest.1 st' h
      · intro p hp tl hptl
        simp only [Worker.wRunAnn, List.mem_append, List.mem_map] at hp
        rcases hp with ⟨e, he, hpe⟩ | hp
        · have := hstep.2 e he tl (by rw [← hptl, ← hpe])
          rw [← hpe]
          exact this
        · exact hrest.2 p hp tl hptl

/-- C9 (amended): along any accepted command/tick sequence whose `start` and
`update` payloads satisfy `1 ≤ timeLeft ≤ duration` and whose `reset` payloads
satisfy `0 ≤ newDuration ≤ duration`, every state the worker passes through
satisfies `0 ≤ timeLeft ≤ duration`, and every emitted `tick` reports a
`timeLeft` with `0 ≤ timeLeft ≤ duration` for the duration in force when it
was posted. -/
theorem protocol_countdown_bounds (ss : List Worker.WStep)
    (h : Worker.okSeq Worker.initWState ss = true) :
    (∀ st' ∈ Worker.wRunStates Worker.initWState ss,
      0 ≤ st'.timeLeft ∧ st'.timeLeft ≤ st'.duration) ∧
    (∀ p ∈ Worker.wRunAnn Worker.initWState ss, ∀ tl : Int,
      p.2 = Worker.WEvent.tick tl → 0 ≤ tl ∧ tl ≤ p.1.duration) := by
  have hinv : Worker.WInv Worker.initWState := ⟨by decide, by decide, by decide⟩
  have := wRun_inv ss Worker.initWState hinv h
  exact ⟨fun st' hst' => ⟨(this.1 st' hst').1, (this.1 st' hst').2.1⟩, this.2⟩

/-- Witness for C9: a well-formed `start` followed by two interval ticks. -/
theorem protocol_countdown_bounds_witness :
    Worker.okSeq Worker.initWState
      [Worker.WStep.msg (Worker.WCmd.start 5 5 0),
       Worker.WStep.clock 10000, Worker.WStep.clock 11000] = true ∧
    (∀ st' ∈ Worker.wRunStates Worker.initWState
      [Worker.WStep.msg (Worker.WCmd.start 5 5 0),
       Worker.WStep.clock 10000, Worker.WStep.clock 11000],
      0 ≤ st'.timeLeft ∧ st'.timeLeft ≤ st'.duration) := by
  refine ⟨by decide, ?_⟩
  exact (protocol_countdown_bounds _ (by decide)).1

/-- C9 counterexample: the protocol accepts
`start {duration: 5, timeLeft: 10}`, after which the countdown state violates
`timeLeft ≤ duration`, and the next interval tick reports `timeLeft = 9` while
the duration is `5`. -/
theorem protocol_counterexample :
    (Worker.wRun Worker.initWState
      [Worker.WStep.msg (Worker.WCmd.start 5 10 0)]).1.timeLeft = 10 ∧
    (Worker.wRun Worker.initWState
      [Worker.WStep.msg (Worker.WCmd.start 5 10 0)]).1.duration = 5 ∧
    ¬ ((Worker.wRun Worker.initWState
      [Worker.WStep.msg (Worker.WCmd.start 5 10 0)]).1.timeLeft ≤
       (Worker.wRun Worker.initWState
      [Worker.WStep.msg (Worker.WCmd.start 5 10 0)]).1.duration) ∧
    (Worker.wRun Worker.initWState
      [Worker.WStep.msg (Worker.WCmd.start 5 10 0),
       Worker.WStep.clock 100000]).2 = [Worker.WEvent.tick 9] := by
  refine ⟨by decide, by decide, by decide, by decide⟩

/-! ## The canonical countdown trace (claims C2, C3, C4) -/

lemma runTicksFull_cons (st : Worker.WState) (t : Int) (ts : List Int)
    (hrun : st.timerRunning = true) :
    (Worker.runTicksFull st (t :: ts)).2 =
      (Worker.workerTick st t).2.map (fun e => (t, e)) ++
        (Worker.runTicksFull (Worker.workerTick st t).1 ts).2 := by
  simp [Worker.runTicksFull, hrun]

lemma workerTick_events (st : Worker.WState) (t : Int) :
    (Worker.workerTick st t).2 =
      (if Worker.reminderCond st t then
        [Worker.WEvent.reminder (st.duration - (st.timeLeft - 1))] else []) ++
      (if st.timeLeft - 1 = 60 then [Worker.WEvent.finalMinute] else []) ++
      [Worker.WEvent.tick (st.timeLeft - 1)] ++
      (if st.timeLeft - 1 ≤ 0 then [Worker.WEvent.complete] else []) := rfl

lemma tickVals_append (l₁ l₂ : List Worker.WEvent) :
    Worker.tickVals (l₁ ++ l₂) = Worker.tickVals l₁ ++ Worker.tickVals l₂ :=
  List.filterMap_append l₁ l₂ Worker.tickVal

lemma fmCount_append (l₁ l₂ : List Worker.WEvent) :
    Worker.fmCount (l₁ ++ l₂) = Worker.fmCount l₁ + Worker.fmCount l₂ :=
  List.countP_append _ _ _

lemma completeCount_append (l₁ l₂ : List Worker.WEvent) :
    Worker.completeCount (l₁ ++ l₂) = Worker.completeCount l₁ + Worker.completeCount l₂ :=
  List.countP_append _ _ _

lemma run_trace (n : Nat) :
    ∀ (st : Worker.WState) (times : List Int),
      st.timerRunning = true → st.timeLeft = (n : Int) → times.length = n → 0 < n →
      Worker.tickVals ((Worker.runTicksFull st times).2.map Prod.snd) =
        (List.range n).map (fun (i : Nat) => (n : Int) - 1 - (i : Int)) ∧
      ((Worker.runTicksFull st times).2.map Prod.snd).getLast? =
        some Worker.WEvent.complete ∧
      Worker.completeCount ((Worker.runTicksFull st times).2.map Prod.snd) = 1 ∧
      Worker.fmCount ((Worker.runTicksFull st times).2.map Prod.snd) =
        (if 61 ≤ n then 1 else 0) ∧
      (61 ≤ n → List.IsInfix [Worker.WEvent.finalMinute, Worker.WEvent.tick 60]
        ((Worker.runTicksFull st times).2.map Prod.snd)) := by
  induction n with
  | zero => intro st times _ _ _ hpos; exact absurd hpos (by omega)
  | succ k ih =>
      intro st times hrun htl hlen _
      cases times with
      | nil => exact absurd hlen (by simp)
      | cons t ts =>
          have hlen' : ts.length = k := by simpa using hlen
          have hk : st.timeLeft - 1 = (k : Int) := by rw [htl]; push_cast; ring
          have hproj : (Worker.runTicksFull st (t :: ts)).2.map Prod.snd =
              (Worker.workerTick st t).2 ++
                (Worker.runTicksFull (Worker.workerTick st t).1 ts).2.map Prod.snd := by
            rw [runTicksFull_cons st t ts hrun]
            simp
          cases k with
          | zero =>
              have hts : ts = [] := List.length_eq_zero.mp hlen'
              have hrest : (Worker.runTicksFull (Worker.workerTick st t).1 ts).2 = [] := by
                rw [hts]; rfl
              have hev := workerTick_events st t
              rw [hk] at hev
              norm_num at hev
              rw [hproj, hrest]
              by_cases hrem : Worker.reminderCond st t <;>
                simp [hev, hrem, Worker.tickVals, Worker.tickVal, Worker.completeCount,
                  Worker.isCompleteEv, Worker.fmCount, Worker.isFmEv] <;>
                decide
          | succ m =>
              have hnot : ¬(st.timeLeft - 1 ≤ 0) := by rw [hk]; push_cast; omega
              have hrun' : (Worker.workerTick st t).1.timerRunning = true := by
                simp [Worker.workerTick, hnot, hrun]
              have htl' : (Worker.workerTick st t).1.timeLeft = ((m + 1 : Nat) : Int) := by
                simp only [Worker.workerTick]
                rw [hk]
              obtain ⟨IH1, IH2, IH3, IH4, IH5⟩ :=
                ih (Worker.workerTick st t).1 ts hrun' htl' hlen' (by omega)
              have hC : ¬((m + 1 : Nat) : Int) ≤ 0 := by push_cast; omega
              have hev := workerTick_events st t
              rw [hk, if_neg hC] at hev
              have htickEV : Worker.tickVals (Worker.workerTick st t).2 =
                  [((m + 1 : Nat) : Int)] := by
                rw [hev, tickVals_append, tickVals_append, tickVals_append]
                have h1 : Worker.tickVals (if Worker.reminderCond st t then
                    [Worker.WEvent.reminder (st.duration - ((m + 1 : Nat) : Int))]
                    else []) = [] := by
                  split_ifs <;> rfl
                have h2 : Worker.tickVals (if ((m + 1 : Nat) : Int) = 60 then
                    [Worker.WEvent.finalMinute] else []) = [] := by
                  split_ifs <;> rfl
                rw [h1, h2]
                rfl
              have hcompleteEV : Worker.completeCount (Worker.workerTick st t).2 = 0 := by
                rw [hev, completeCount_append, completeCount_append, completeCount_append]
                have h1 : Worker.completeCount (if Worker.reminderCond st t then
                    [Worker.WEvent.reminder (st.duration - ((m + 1 : Nat) : Int))]
                    else []) = 0 := by
                  split_ifs <;> rfl
                have h2 : Worker.completeCount (if ((m + 1 : Nat) : Int) = 60 then
                    [Worker.WEvent.finalMinute] else []) = 0 := by
                  split_ifs <;> rfl
                rw [h1, h2]
                rfl
              have hfmEV : Worker.fmCount (Worker.workerTick st t).2 =
                  (if ((m + 1 : Nat) : Int) = 60 then 1 else 0) := by
                rw [hev, fmCount_append, fmCount_append, fmCount_append]
                have h1 : Worker.fmCount (if Worker.reminderCond st t then
                    [Worker.WEvent.reminder (st.duration - ((m + 1 : Nat) : Int))]
                    else []) = 0 := by
                  split_ifs <;> rfl
                have h2 : Worker.fmCount (if ((m + 1 : Nat) : Int) = 60 then
                    [Worker.WEvent.finalMinute] else []) =
                    (if ((m + 1 : Nat) : Int) = 60 then 1 else 0) := by
                  split_ifs <;> rfl
                rw [h1, h2]
                split_ifs <;> rfl
              have hrange : (List.range (m + 1 + 1)).map
                    (fun (i : Nat) => ((m + 1 + 1 : Nat) : Int) - 1 - (i : Int)) =
                  ((m + 1 : Nat) : Int) ::
                    (List.range (m + 1)).map
                      (fun (i : Nat) => ((m + 1 : Nat) : Int) - 1 - (i : Int)) := by
                rw [List.range_succ_eq_map, List.map_cons, List.map_map]
                congr 1
                · push_cast; ring
                · apply List.map_congr_left
                  intro i _
                  simp only [Function.comp_apply]
                  push_cast; ring
              have hne : (Worker.runTicksFull (Worker.workerTick st t).1 ts).2.map Prod.snd ≠
                  [] := by
                intro h
                rw [h] at IH2
                simp at IH2
              refine ⟨?_, ?_, ?_, ?_, ?_⟩
              · rw [hproj, tickVals_append, htickEV, IH1, hrange]
                rfl
              · rw [hproj, List.getLast?_append_of_ne_nil _ hne]
                exact IH2
              · rw [hproj, completeCount_append, hcompleteEV, IH3]
              · rw [hproj, fmCount_append, hfmEV, IH4]
                have hiff : (((m + 1 : Nat) : Int) = 60) ↔ (m + 1 = 60) := by omega
                by_cases h60 : m + 1 = 60
                · rw [if_pos (hiff.mpr h60), if_neg (by omega : ¬ 61 ≤ m + 1),
                    if_pos (by omega : 61 ≤ m + 1 + 1)]
                · by_cases h61 : 61 ≤ m + 1
                  · rw [if_neg (fun h => h60 (hiff.mp h)), if_pos h61,
                      if_pos (by omega : 61 ≤ m + 1 + 1)]
                  · rw [if_neg (fun h => h60 (hiff.mp h)), if_neg h61,
                      if_neg (by omega : ¬ 61 ≤ m + 1 + 1)]
              · intro h61
                by_cases h60 : m + 1 = 60
                · have hF : ((m + 1 : Nat) : Int) = 60 := by omega
                  rw [hproj, hev, if_pos hF, hF]
                  exact ⟨if Worker.reminderCond st t then
                      [Worker.WEvent.reminder (st.duration - 60)] else [],
                    (Worker.runTicksFull (Worker.workerTick st t).1 ts).2.map Prod.snd,
                    by simp⟩
                · have hrest := IH5 (by omega)
                  rw [hproj]
                  exact hrest.trans (List.IsSuffix.isInfix (List.suffix_append _ _))

/-! ## Claim C2 -/

/-- C2: a canonical countdown of a task with duration `D > 0` (started with
`timeLeft = D`) emits exactly `D` ticks, reporting `D-1, D-2, …, 0` in that
strictly decreasing order, then a single `complete` as the very last event;
the duration-5, interval-0 scenario yields exactly
`tick 4,3,2,1,0` followed by `complete`, with no reminder events. -/
theorem countdown_tick_trace (D R t0 : Nat) (hD : 0 < D) :
    Worker.tickVals (Worker.countdownEvents D R t0) =
      (List.range D).map (fun (i : Nat) => (D : Int) - 1 - (i : Int)) ∧
    (Worker.tickVals (Worker.countdownEvents D R t0)).length = D ∧
    (Worker.countdownEvents D R t0).getLast? = some Worker.WEvent.complete ∧
    Worker.completeCount (Worker.countdownEvents D R t0) = 1 ∧
    Worker.countdownEvents 5 0 0 =
      [Worker.WEvent.tick 4, Worker.WEvent.tick 3, Worker.WEvent.tick 2,
       Worker.WEvent.tick 1, Worker.WEvent.tick 0, Worker.WEvent.complete] := by
  have h := run_trace D (Worker.workerCmd Worker.initWState (Worker.WCmd.start D D R)).1
    (Worker.canonTimes t0 0 D) rfl rfl (by simp [Worker.canonTimes]) hD
  refine ⟨h.1, ?_, h.2.1, h.2.2.1, by decide⟩
  have hlen := congrArg List.length h.1
  simpa using hlen

/-- Witness for C2: the duration-5 scenario. -/
theorem countdown_tick_trace_witness :
    0 < 5 ∧
    Worker.countdownEvents 5 0 0 =
      [Worker.WEvent.tick 4, Worker.WEvent.tick 3, Worker.WEvent.tick 2,
       Worker.WEvent.tick 1, Worker.WEvent.tick 0, Worker.WEvent.complete] :=
  ⟨by decide, (countdown_tick_trace 5 0 0 (by decide)).2.2.2.2⟩

/-! ## Claim C4 -/

/-- C4 (amended): during a canonical countdown the `finalMinute` notification
fires exactly once when `D > 60` — immediately before the tick reporting
`timeLeft = 60` — and never fires when `D ≤ 60` (in particular not when
`D = 60`, since the first tick already reports `59`). -/
theorem finalMinute_schedule (D R t0 : Nat) :
    Worker.fmCount (Worker.countdownEvents D R t0) = (if 61 ≤ D then 1 else 0) ∧
    (61 ≤ D → List.IsInfix [Worker.WEvent.finalMinute, Worker.WEvent.tick 60]
      (Worker.countdownEvents D R t0)) := by
  rcases Nat.eq_zero_or_pos D with hD | hD
  · subst hD
    have h0 : Worker.countdownEvents 0 R t0 = [] := by
      simp [Worker.countdownEvents, Worker.countdownRun, Worker.canonTimes,
        Worker.runTicksFull]
    rw [h0]
    exact ⟨by simp [Worker.fmCount], fun h => absurd h (by omega)⟩
  · have h := run_trace D (Worker.workerCmd Worker.initWState (Worker.WCmd.start D D R)).1
      (Worker.canonTimes t0 0 D) rfl rfl (by simp [Worker.canonTimes]) hD
    exact ⟨h.2.2.2.1, h.2.2.2.2⟩

/-- Witness for C4: a 61-second countdown fires the final-minute warning once,
right before the tick reporting 60. -/
theorem finalMinute_schedule_witness :
    Worker.fmCount (Worker.countdownEvents 61 0 0) = (if 61 ≤ 61 then 1 else 0) ∧
    List.IsInfix [Worker.WEvent.finalMinute, Worker.WEvent.tick 60]
      (Worker.countdownEvents 61 0 0) :=
  ⟨(finalMinute_schedule 61 0 0).1, (finalMinute_schedule 61 0 0).2 (by decide)⟩

/-- C4 counterexample: for `D = 60` — which the claim does not exempt, since
`60 < 60` is false — the countdown fires the final-minute warning zero times
rather than exactly once: `timeLeft` starts at 60 and the first tick already
reports 59. -/
theorem finalMinute_at_60_counterexample :
    Worker.fmCount (Worker.countdownEvents 60 0 0) = 0 ∧ ¬ (60 < 60) :=
  ⟨by decide, by decide⟩

/-! ## Claim C3 -/

lemma reminderPairs_append (l₁ l₂ : List (Int × Worker.WEvent)) :
    Worker.reminderPairs (l₁ ++ l₂) =
      Worker.reminderPairs l₁ ++ Worker.reminderPairs l₂ :=
  List.filterMap_append _ _ _

lemma reminderPairs_map_snd (t : Int) (evs : List Worker.WEvent) :
    Worker.reminderPairs (evs.map (fun e => (t, e))) =
      (evs.filterMap Worker.reminderVal).map (fun x => (t, x)) := by
  unfold Worker.reminderPairs
  rw [List.filterMap_map, List.map_filterMap]
  rfl

/-- The annotated reminder events of one interval firing. -/
lemma reminderPairs_tick (running : Bool) (tl dur rec last now : Int) :
    Worker.reminderPairs
      ((Worker.workerTick ⟨running, tl, dur, rec, last⟩ now).2.map (fun e => (now, e))) =
      (if Worker.reminderCond ⟨running, tl, dur, rec, last⟩ now
        then [(now, dur - (tl - 1))] else []) := by
  rw [reminderPairs_map_snd, workerTick_events]
  simp only [List.filterMap_append]
  have h1 : (if Worker.reminderCond ⟨running, tl, dur, rec, last⟩ now then
      [Worker.WEvent.reminder (dur - (tl - 1))]
      else []).filterMap Worker.reminderVal =
      (if Worker.reminderCond ⟨running, tl, dur, rec, last⟩ now
        then [dur - (tl - 1)] else []) := by
    split_ifs <;> rfl
  have h2 : (if tl - 1 = 60 then [Worker.WEvent.finalMinute]
      else []).filterMap Worker.reminderVal = [] := by
    split_ifs <;> rfl
  have h3 : (if tl - 1 ≤ 0 then [Worker.WEvent.complete]
      else []).filterMap Worker.reminderVal = [] := by
    split_ifs <;> rfl
  rw [h1, h2, h3]
  split_ifs <;> rfl

/-- The reminder schedule of a canonical countdown, generalized over the
number `e` of seconds already elapsed: with `R > 5` the debounce never blocks,
and the remaining `n` ticks fire exactly at the multiples of `R` lying in
`(e, e + n]`, at one fire per multiple, timestamped 1000 ms per second. -/
lemma reminder_trace (n : Nat) :
    ∀ (e D R t0 : Nat), D = e + n → 5 < R →
      Worker.reminderPairs
        (Worker.runTicksFull
          ⟨true, (n : Int), (D : Int), (R : Int), Worker.lastFire t0 R e⟩
          (Worker.canonTimes t0 e n)).2 =
        (List.range (D / R - e / R)).map
          (fun (md : Nat) =>
            ((t0 : Int) + 1000 * ((R * (e / R + md + 1) : Nat) : Int),
             ((R * (e / R + md + 1) : Nat) : Int))) := by
  induction n with
  | zero =>
      intro e D R t0 hD hR
      subst hD
      simp [Worker.canonTimes, Worker.runTicksFull, Worker.reminderPairs]
  | succ m ih =>
      intro e D R t0 hD hR
      have hct : Worker.canonTimes t0 e (m + 1) =
          ((t0 : Int) + 1000 * ((e : Int) + 1)) :: Worker.canonTimes t0 (e + 1) m := by
        unfold Worker.canonTimes
        rw [List.range_succ_eq_map, List.map_cons, List.map_map]
        refine congr_arg₂ List.cons ?_ ?_
        · push_cast; ring
        · apply List.map_congr_left
          intro i _
          simp only [Function.comp_apply]
          push_cast; ring
      rw [hct,
        runTicksFull_cons ⟨true, ((m + 1 : Nat) : Int), (D : Int), (R : Int),
          Worker.lastFire t0 R e⟩ _ _ rfl,
        reminderPairs_append, reminderPairs_tick]
      have hexp : (D : Int) - (((m + 1 : Nat) : Int) - 1) = ((e + 1 : Nat) : Int) := by
        push_cast; omega
      by_cases hdvd : R ∣ (e + 1)
      · -- the tick reaches a multiple of R: the reminder fires
        have hq : (e + 1) / R = e / R + 1 := by rw [Nat.succ_div, if_pos hdvd]
        have hmul0 : R * ((e + 1) / R) = e + 1 := Nat.mul_div_cancel' hdvd
        have hmul1 : R * (e / R + 1) = e + 1 := by rw [← hq]; exact hmul0
        have hdeb : 5000 < ((t0 : Int) + 1000 * ((e : Int) + 1)) -
            Worker.lastFire t0 R e := by
          unfold Worker.lastFire
          split_ifs with h0
          · have hRle : R ≤ e + 1 := Nat.le_of_dvd (by omega) hdvd
            omega
          · have h2 : R * (e / R) + R = e + 1 := by
              rw [Nat.mul_add, Nat.mul_one] at hmul1
              exact hmul1
            have h2' : ((R * (e / R) : Nat) : Int) + (R : Int) = (e : Int) + 1 := by
              exact_mod_cast h2
            omega
        have hrc : Worker.reminderCond
            ⟨true, ((m + 1 : Nat) : Int), (D : Int), (R : Int), Worker.lastFire t0 R e⟩
            ((t0 : Int) + 1000 * ((e : Int) + 1)) := by
          refine ⟨?_, ?_, ?_, hdeb⟩
          · show (0 : Int) < (R : Int)
            exact_mod_cast (by omega : 0 < R)
          · show (0 : Int) < (D : Int) - (((m + 1 : Nat) : Int) - 1)
            rw [hexp]
            exact_mod_cast Nat.succ_pos e
          · show ((D : Int) - (((m + 1 : Nat) : Int) - 1)) % (R : Int) < 1
            rw [hexp]
            have hmod : ((e + 1 : Nat) : Int) % (R : Int) = 0 := by
              have h0 : (e + 1) % R = 0 := by
                have hd2 := hdvd
                obtain ⟨c, hc⟩ := hd2
                rw [hc]
                exact Nat.mul_mod_right R c
              exact_mod_cast h0
            rw [hmod]
            omega
        rw [if_pos hrc]
        have hlfnow : Worker.lastFire t0 R (e + 1) =
            (t0 : Int) + 1000 * ((e : Int) + 1) := by
          have hne0 : ¬ (e + 1) / R = 0 := by
            rw [hq]
            exact Nat.succ_ne_zero _
          unfold Worker.lastFire
          rw [if_neg hne0, hq, hmul1]
          push_cast
          ring
        have hhead : ((t0 : Int) + 1000 * ((e : Int) + 1),
              (D : Int) - (((m + 1 : Nat) : Int) - 1)) =
            (((t0 : Int) + 1000 * ((R * (e / R + 0 + 1) : Nat) : Int)),
              ((R * (e / R + 0 + 1) : Nat) : Int)) := by
          have hcast : ((R * (e / R + 0 + 1) : Nat) : Int) = ((e + 1 : Nat) : Int) := by
            exact_mod_cast (by simpa using hmul1 : R * (e / R + 0 + 1) = e + 1)
          rw [hexp, hcast]
          push_cast
          rfl
        have hcount : D / R - e / R = (D / R - (e + 1) / R) + 1 := by
          have hle : (e + 1) / R ≤ D / R := Nat.div_le_div_right (by omega)
          omega
        rw [List.singleton_append, hcount, List.range_succ_eq_map, List.map_cons,
          List.map_map]
        refine congr_arg₂ List.cons hhead ?_
        cases m with
        | zero =>
            have hz : D / R - (e + 1) / R = 0 := by
              have hDe : D = e + 1 := by omega
              rw [hDe]
              omega
            rw [hz]
            simp [Worker.canonTimes, Worker.runTicksFull, Worker.reminderPairs]
        | succ mm =>
            have hcond : ¬(((mm + 1 + 1 : Nat) : Int) - 1 ≤ 0) := by push_cast; omega
            have htleq : ((mm + 1 + 1 : Nat) : Int) - 1 = ((mm + 1 : Nat) : Int) := by
              push_cast; ring
            have hst' : (Worker.workerTick
                ⟨true, ((mm + 1 + 1 : Nat) : Int), (D : Int), (R : Int),
                  Worker.lastFire t0 R e⟩
                ((t0 : Int) + 1000 * ((e : Int) + 1))).1 =
                ⟨true, ((mm + 1 : Nat) : Int), (D : Int), (R : Int),
                  Worker.lastFire t0 R (e + 1)⟩ := by
              simp only [Worker.workerTick, if_pos hrc, if_neg hcond]
              rw [htleq, hlfnow]
            rw [hst', ih (e + 1) D R t0 (by omega) hR]
            apply List.map_congr_left
            intro i _
            simp only [Function.comp_apply]
            rw [hq]
            have hidx : e / R + 1 + i + 1 = e / R + (i + 1) + 1 := by omega
            rw [hidx]
      · -- not a multiple of R: the modulo guard blocks the reminder
        have hq' : (e + 1) / R = e / R := by
          rw [Nat.succ_div, if_neg hdvd, Nat.add_zero]
        have hnrc : ¬ Worker.reminderCond
            ⟨true, ((m + 1 : Nat) : Int), (D : Int), (R : Int), Worker.lastFire t0 R e⟩
            ((t0 : Int) + 1000 * ((e : Int) + 1)) := by
          intro hcond
          have hmodlt : ((D : Int) - (((m + 1 : Nat) : Int) - 1)) % (R : Int) < 1 :=
            hcond.2.2.1
          rw [hexp] at hmodlt
          have hmlt : (e + 1) % R < 1 := by exact_mod_cast hmodlt
          exact hdvd (Nat.dvd_of_mod_eq_zero (by omega))
        rw [if_neg hnrc, List.nil_append]
        have hlf : Worker.lastFire t0 R (e + 1) = Worker.lastFire t0 R e := by
          unfold Worker.lastFire
          rw [hq']
        cases m with
        | zero =>
            have hz : D / R - e / R = 0 := by
              have hDe : D = e + 1 := by omega
              rw [hDe, hq']
              omega
            rw [hz]
            simp [Worker.canonTimes, Worker.runTicksFull, Worker.reminderPairs]
        | succ mm =>
            have hcond : ¬(((mm + 1 + 1 : Nat) : Int) - 1 ≤ 0) := by push_cast; omega
            have htleq : ((mm + 1 + 1 : Nat) : Int) - 1 = ((mm + 1 : Nat) : Int) := by
              push_cast; ring
            have hst' : (Worker.workerTick
                ⟨true, ((mm + 1 + 1 : Nat) : Int), (D : Int), (R : Int),
                  Worker.lastFire t0 R e⟩
                ((t0 : Int) + 1000 * ((e : Int) + 1))).1 =
                ⟨true, ((mm + 1 : Nat) : Int), (D : Int), (R : Int),
                  Worker.lastFire t0 R (e + 1)⟩ := by
              simp only [Worker.workerTick, if_neg hnrc, if_neg hcond]
              rw [htleq, hlf]
            rw [hst', ih (e + 1) D R t0 (by omega) hR, hq']

/-- C3 (amended): in a canonical countdown of duration `D > 0` with reminder
interval `R > 5` — large enough that the 5-second debounce never blocks —
exactly `⌊D / R⌋` reminders fire, at elapsed values `R, 2R, …` (never at
elapsed 0), and any two of them (in particular consecutive ones) are at least
5 real seconds apart. -/
theorem reminder_schedule (D R t0 : Nat) (hD : 0 < D) (hR : 5 < R) :
    Worker.reminderPairs (Worker.countdownRun D R t0) =
      (List.range (D / R)).map
        (fun (md : Nat) =>
          ((t0 : Int) + 1000 * ((R * (md + 1) : Nat) : Int),
           ((R * (md + 1) : Nat) : Int))) ∧
    (Worker.reminderPairs (Worker.countdownRun D R t0)).length = D / R ∧
    (Worker.reminderPairs (Worker.countdownRun D R t0)).Pairwise
      (fun a b => a.1 + 5000 ≤ b.1) ∧
    (∀ p ∈ Worker.reminderPairs (Worker.countdownRun D R t0), 0 < p.2) := by
  have hfinal : Worker.reminderPairs (Worker.countdownRun D R t0) =
      (List.range (D / R)).map
        (fun (md : Nat) =>
          ((t0 : Int) + 1000 * ((R * (md + 1) : Nat) : Int),
           ((R * (md + 1) : Nat) : Int))) := by
    have hmain := reminder_trace D 0 D R t0 (by omega) hR
    have h0 : Worker.lastFire t0 R 0 = 0 := by simp [Worker.lastFire]
    rw [h0] at hmain
    simp only [Nat.zero_div, Nat.zero_add, Nat.sub_zero] at hmain
    exact hmain
  refine ⟨hfinal, ?_, ?_, ?_⟩
  · rw [hfinal]
    simp
  · rw [hfinal]
    refine List.Pairwise.map _ ?_ (List.pairwise_lt_range (D / R))
    intro a b hab
    have h2 : R * (a + 2) ≤ R * (b + 1) := Nat.mul_le_mul_left R (by omega)
    have hc2 : ((R * (a + 1) : Nat) : Int) + (R : Int) = ((R * (a + 2) : Nat) : Int) := by
      push_cast; ring
    have hc3 : ((R * (a + 2) : Nat) : Int) ≤ ((R * (b + 1) : Nat) : Int) := by
      exact_mod_cast h2
    have hc4 : (5 : Int) < (R : Int) := by exact_mod_cast hR
    simp only
    linarith [hc2, hc3, hc4]
  · rw [hfinal]
    intro p hp
    simp only [List.mem_map] at hp
    obtain ⟨md, _, rfl⟩ := hp
    have : 0 < R * (md + 1) := Nat.mul_pos (by omega) (by omega)
    simpa using this

/-- Witness for C3: duration 12, interval 6 — two reminders, at elapsed 6 and
12, timestamped 6 and 12 seconds after start. -/
theorem reminder_schedule_witness :
    0 < 12 ∧ 5 < 6 ∧
    (Worker.reminderPairs (Worker.countdownRun 12 6 0)).length = 12 / 6 :=
  ⟨by decide, by decide, (reminder_schedule 12 6 0 (by decide) (by decide)).2.1⟩

/-- C3 counterexample: for duration 2 and reminder interval `R = 1` the claim
promises `⌊2 / 1⌋ = 2` reminder events, but the second candidate (elapsed 2)
arrives only 1000 ms after the first fire, inside the 5-second debounce
window, so exactly one reminder fires. -/
theorem reminder_debounce_counterexample :
    (Worker.reminderPairs (Worker.countdownRun 2 1 6000)).length = 1 ∧
    ¬ ((2 / 1 : Nat) = 1) :=
  ⟨by decide, by decide⟩

end TimeTrackr
